import Mathlib

/-!
Verification of the tracer-client process-lifecycle tracker and file-lifecycle
tracker (src/src/extracts/process_watcher.rs, src/src/file_watcher.rs), as a
shallow embedding.  Rust `HashMap`s are modelled as association lists,
`HashSet`s as duplicate-free lists, `DateTime<Utc>`/`Duration` as integer
second counts, and the event-recorder sink as an accumulating list of events.
-/

namespace Tracer

/-- sysinfo `Pid` (a process-id integer). -/
abbrev Pid := Nat

/-- `InputFile` as constructed in `add_new_process`. -/
structure InputFile where
  file_name : String
  file_size : Nat
  file_path : String
  file_directory : String
  file_updated_at_timestamp : String
deriving DecidableEq

/-- `ProcessProperties` as constructed in `gather_process_data`
(`process_cpu_utilization` is an `f32`; it is carried, never computed with). -/
structure ProcessProperties where
  tool_name : String
  tool_pid : String
  tool_parent_pid : String
  tool_binary_path : String
  tool_cmd : String
  start_timestamp : String
  process_cpu_utilization : Float
  process_run_time : Nat
  process_disk_usage_read_total : Nat
  process_disk_usage_write_total : Nat
  process_disk_usage_read_last_interval : Nat
  process_disk_usage_write_last_interval : Nat
  process_memory_usage : Nat
  process_memory_virtual : Nat
  process_status : String
  input_files : Option (List InputFile)
  container_id : Option String
  aws_batch_job_id : Option String

/-- `ProcessTreeNode`: properties, owned children, parent back-reference and
start time.  The children list makes this a nested inductive type. -/
inductive ProcessTreeNode where
  | mk (properties : ProcessProperties) (children : List ProcessTreeNode)
       (parentId : Option Pid) (startTime : Int)

/-- Projection of the `parent_id` field. -/
def ProcessTreeNode.parentId : ProcessTreeNode → Option Pid
  | .mk _ _ p _ => p

/-- Projection of the `properties` field. -/
def ProcessTreeNode.properties : ProcessTreeNode → ProcessProperties
  | .mk pr _ _ _ => pr

/-- `HashMap::get` on an association-list model of `HashMap<Pid, ProcessTreeNode>`. -/
def mapGet (m : List (Pid × ProcessTreeNode)) (p : Pid) : Option ProcessTreeNode :=
  (m.find? (fun e => e.1 == p)).map (fun e => e.2)

/-- The `while let` loop body of `ProcessWatcher::get_parent_processes`, with
explicit fuel standing for the (unbounded) iteration of the Rust loop.
State: current `parent` cursor and `last_valid_parent`. -/
def climbLoop (map : List (Pid × ProcessTreeNode)) (valid : List Pid)
    (forceAncestorToMatch : Bool) : Nat → Pid → Pid → Pid
  | 0, _, lastValid => lastValid
  | fuel + 1, parent, lastValid =>
    match mapGet map parent with
    | none => lastValid
    | some parentNode =>
      match parentNode.parentId with
      | none => lastValid
      | some q =>
        if valid.contains q then
          climbLoop map valid forceAncestorToMatch fuel q q
        else if forceAncestorToMatch then lastValid else q

/-- `ProcessWatcher::get_parent_processes`: one climb per input pid, with the
representative pushed onto the result only when not already present. -/
def getParentProcesses (map : List (Pid × ProcessTreeNode)) (valid : List Pid)
    (forceAncestorToMatch : Bool) (fuel : Nat) : List Pid :=
  valid.foldl
    (fun result p =>
      let rep := climbLoop map valid forceAncestorToMatch fuel p p
      if rep ∈ result then result else result ++ [rep])
    []

/-- Spec-side notion: the upward ancestor chain of `p` read off the tree map
(successive `parent_id`s, ending where a node or a parent link is missing). -/
def ancChain (map : List (Pid × ProcessTreeNode)) : Nat → Pid → List Pid
  | 0, _ => []
  | fuel + 1, p =>
    match mapGet map p with
    | none => []
    | some node =>
      match node.parentId with
      | none => []
      | some q => q :: ancChain map fuel q

/-- Spec-side notion: the deepest matching ancestor of `p` reachable without
crossing a non-matching parent — the last element of the all-matching prefix
of the ancestor chain, `p` itself when that prefix is empty. -/
def deepestMatchingAncestor (map : List (Pid × ProcessTreeNode)) (valid : List Pid)
    (fuel : Nat) (p : Pid) : Pid :=
  ((ancChain map fuel p).takeWhile valid.contains).getLastD p

/-- Spec-side notion: the first non-matching parent met on the upward walk
from `p`, if the walk meets one. -/
def firstNonMatchingParent (map : List (Pid × ProcessTreeNode)) (valid : List Pid)
    (fuel : Nat) (p : Pid) : Option Pid :=
  ((ancChain map fuel p).dropWhile valid.contains).head?

/-- Spec-side representative for `force_ancestor_to_match = false`: the first
non-matching parent when the walk meets one, the deepest matching ancestor
otherwise. -/
def laxRepresentative (map : List (Pid × ProcessTreeNode)) (valid : List Pid)
    (fuel : Nat) (p : Pid) : Pid :=
  match firstNonMatchingParent map valid fuel p with
  | some q => q
  | none => deepestMatchingAncestor map valid fuel p

/-- First-occurrence deduplication, keeping encounter order. -/
def dedupKeepFirst : List Pid → List Pid
  | [] => []
  | a :: l => a :: (dedupKeepFirst l).filter (fun x => x ≠ a)

/-- The walk from `p` terminates within `fuel` steps: the all-matching prefix
of the ancestor chain is shorter than the fuel. -/
def WalkTerminates (map : List (Pid × ProcessTreeNode)) (valid : List Pid)
    (fuel : Nat) (p : Pid) : Prop :=
  ((ancChain map fuel p).takeWhile valid.contains).length < fuel

instance (map : List (Pid × ProcessTreeNode)) (valid : List Pid) (fuel : Nat) (p : Pid) :
    Decidable (WalkTerminates map valid fuel p) :=
  Nat.decLt _ _

theorem climbLoop_true_spec (map : List (Pid × ProcessTreeNode)) (valid : List Pid) :
    ∀ fuel p, WalkTerminates map valid fuel p →
      climbLoop map valid true fuel p p = deepestMatchingAncestor map valid fuel p := by
  intro fuel
  induction fuel with
  | zero => intro p h; simp [WalkTerminates] at h
  | succ n ih =>
    intro p h
    unfold WalkTerminates ancChain at h
    unfold climbLoop deepestMatchingAncestor ancChain
    cases hm : mapGet map p with
    | none => simp
    | some node =>
      simp only [hm] at h
      cases hpar : node.parentId with
      | none => simp [hpar]
      | some q =>
        simp only [hpar] at h ⊢
        cases hq : valid.contains q with
        | false =>
          have hq' : ¬ q ∈ valid := by simpa using hq
          simp [hq, hq', List.takeWhile_cons]
        | true =>
          have hq' : q ∈ valid := by simpa using hq
          simp only [List.takeWhile_cons, hq, if_true, List.length_cons] at h
          have hlt : WalkTerminates map valid n q := by
            unfold WalkTerminates
            omega
          have hrec := ih q hlt
          unfold deepestMatchingAncestor at hrec
          simp [hq, hq', List.takeWhile_cons, hrec, List.getLast?_cons]

theorem climbLoop_false_spec (map : List (Pid × ProcessTreeNode)) (valid : List Pid) :
    ∀ fuel p, WalkTerminates map valid fuel p →
      climbLoop map valid false fuel p p = laxRepresentative map valid fuel p := by
  intro fuel
  induction fuel with
  | zero => intro p h; simp [WalkTerminates] at h
  | succ n ih =>
    intro p h
    unfold WalkTerminates ancChain at h
    unfold climbLoop laxRepresentative firstNonMatchingParent deepestMatchingAncestor ancChain
    cases hm : mapGet map p with
    | none => simp
    | some node =>
      simp only [hm] at h
      cases hpar : node.parentId with
      | none => simp [hpar]
      | some q =>
        simp only [hpar] at h ⊢
        cases hq : valid.contains q with
        | false =>
          have hq' : ¬ q ∈ valid := by simpa using hq
          simp [hq, hq', List.takeWhile_cons, List.dropWhile_cons]
        | true =>
          have hq' : q ∈ valid := by simpa using hq
          simp only [List.takeWhile_cons, hq, if_true, List.length_cons] at h
          have hlt : WalkTerminates map valid n q := by
            unfold WalkTerminates
            omega
          have hrec := ih q hlt
          unfold laxRepresentative firstNonMatchingParent deepestMatchingAncestor at hrec
          simp only [List.takeWhile_cons, List.dropWhile_cons, hq, if_true, hq']
          rw [hrec]
          cases hd : ((ancChain map n q).dropWhile valid.contains).head? with
          | none => simp [hd, List.getLast?_cons]
          | some r => simp [hd]

theorem dedupKeepFirst_filter (q : Pid → Bool) :
    ∀ l : List Pid, dedupKeepFirst (l.filter q) = (dedupKeepFirst l).filter q := by
  intro l
  induction l with
  | nil => simp [dedupKeepFirst]
  | cons a l ih =>
    cases hqa : q a with
    | true =>
      simp only [List.filter_cons, hqa, if_true, dedupKeepFirst, ih]
      rw [List.filter_filter, List.filter_filter]
      refine congrArg (a :: ·) (List.filter_congr ?_)
      intro x _
      simp [Bool.and_comm]
    | false =>
      have hfc : (a :: l).filter q = l.filter q := by simp [List.filter_cons, hqa]
      have hdd : dedupKeepFirst (a :: l)
          = a :: (dedupKeepFirst l).filter (fun x => decide (x ≠ a)) := rfl
      rw [hfc, ih, hdd, List.filter_cons, hqa, if_neg (by simp), List.filter_filter]
      refine List.filter_congr ?_
      intro x _
      cases hqx : q x with
      | false => simp [hqx]
      | true =>
        have hne : x ≠ a := by
          intro hxa
          rw [hxa, hqa] at hqx
          exact Bool.noConfusion hqx
        simp [hne, hqx]

theorem foldl_push_dedup :
    ∀ (l acc : List Pid),
      l.foldl (fun r x => if x ∈ r then r else r ++ [x]) acc
        = acc ++ dedupKeepFirst (l.filter (fun x => !acc.contains x)) := by
  intro l
  induction l with
  | nil => intro acc; simp [dedupKeepFirst]
  | cons a l ih =>
    intro acc
    simp only [List.foldl_cons]
    by_cases ha : a ∈ acc
    · rw [if_pos ha, ih]
      have hfa : (a :: l).filter (fun x => !acc.contains x)
          = l.filter (fun x => !acc.contains x) := by
        simp [List.filter_cons, ha]
      rw [hfa]
    · rw [if_neg ha, ih]
      have hsplit : l.filter (fun x => !(acc ++ [a]).contains x)
          = (l.filter (fun x => !acc.contains x)).filter (fun x => decide (x ≠ a)) := by
        rw [List.filter_filter]
        refine List.filter_congr ?_
        intro x _
        by_cases hx : x = a
        · subst hx; simp
        · by_cases hxacc : x ∈ acc <;> simp [hx, hxacc]
      have hfa : (a :: l).filter (fun x => !acc.contains x)
          = a :: l.filter (fun x => !acc.contains x) := by
        simp [List.filter_cons, ha]
      rw [hsplit, hfa, dedupKeepFirst_filter]
      simp [dedupKeepFirst]

theorem getParentProcesses_eq_dedup (map : List (Pid × ProcessTreeNode))
    (valid : List Pid) (force : Bool) (fuel : Nat) :
    getParentProcesses map valid force fuel
      = dedupKeepFirst (valid.map (fun p => climbLoop map valid force fuel p p)) := by
  unfold getParentProcesses
  rw [← List.foldl_map (fun p => climbLoop map valid force fuel p p)
        (fun r x => if x ∈ r then r else r ++ [x])]
  rw [foldl_push_dedup]
  simp

/-- The tree map built by `tests::test_get_parent_processes`: edges
(parent, child) = (1,2),(2,3),(2,4),(1,5),(4,6),(4,7),(5,8),(1,9),(1,10),
nodes keyed by child pid (pid 1 itself has no node). -/
def testProps (child parent : Nat) : ProcessProperties where
  tool_name := "test"
  tool_pid := toString child
  tool_parent_pid := toString parent
  tool_binary_path := "test"
  tool_cmd := "test"
  start_timestamp := "test"
  process_cpu_utilization := 0.0
  process_run_time := 0
  process_disk_usage_read_total := 0
  process_disk_usage_write_total := 0
  process_disk_usage_read_last_interval := 0
  process_disk_usage_write_last_interval := 0
  process_memory_usage := 0
  process_memory_virtual := 0
  process_status := "test"
  input_files := none
  container_id := none
  aws_batch_job_id := none

/-- The node map of `tests::test_get_parent_processes`. -/
def testTreeMap : List (Pid × ProcessTreeNode) :=
  [(2, .mk (testProps 2 1) [] (some 1) 0),
   (3, .mk (testProps 3 2) [] (some 2) 0),
   (4, .mk (testProps 4 2) [] (some 2) 0),
   (5, .mk (testProps 5 1) [] (some 1) 0),
   (6, .mk (testProps 6 4) [] (some 4) 0),
   (7, .mk (testProps 7 4) [] (some 4) 0),
   (8, .mk (testProps 8 5) [] (some 5) 0),
   (9, .mk (testProps 9 1) [] (some 1) 0),
   (10, .mk (testProps 10 1) [] (some 1) 0)]

/-- C1: for every process-tree map and set of directly matching pids (with the
upward walks terminating within the given fuel), `get_parent_processes` with
`force_ancestor_to_match = true` returns for each matching pid the deepest
matching ancestor reachable without crossing a non-matching parent, and with
`false` the first non-matching parent encountered on the upward walk (the last
matching pid when no non-matching parent is met); representatives are
deduplicated in encounter order. -/
theorem get_parent_processes_correct (map : List (Pid × ProcessTreeNode))
    (valid : List Pid) (fuel : Nat)
    (hterm : ∀ p ∈ valid, WalkTerminates map valid fuel p) :
    getParentProcesses map valid true fuel
        = dedupKeepFirst (valid.map (deepestMatchingAncestor map valid fuel))
      ∧ getParentProcesses map valid false fuel
        = dedupKeepFirst (valid.map (laxRepresentative map valid fuel)) := by
  constructor
  · rw [getParentProcesses_eq_dedup]
    refine congrArg dedupKeepFirst (List.map_congr_left ?_)
    intro p hp
    exact climbLoop_true_spec map valid fuel p (hterm p hp)
  · rw [getParentProcesses_eq_dedup]
    refine congrArg dedupKeepFirst (List.map_congr_left ?_)
    intro p hp
    exact climbLoop_false_spec map valid fuel p (hterm p hp)

/-- Witness for C1 at the repository's own test input: direct matches
{4,5,6,7,8} give representatives [4,5] with force=true and [2,1] with
force=false, and the pids {4,6,7} all collapse to 4 (resp. 2). -/
theorem get_parent_processes_correct_witness :
    (∀ p ∈ ([4, 5, 6, 7, 8] : List Pid), WalkTerminates testTreeMap [4, 5, 6, 7, 8] 20 p)
    ∧ getParentProcesses testTreeMap [4, 5, 6, 7, 8] true 20 = [4, 5]
    ∧ getParentProcesses testTreeMap [4, 5, 6, 7, 8] false 20 = [2, 1]
    ∧ (∀ p ∈ ([4, 6, 7] : List Pid),
        deepestMatchingAncestor testTreeMap [4, 5, 6, 7, 8] 20 p = 4
        ∧ laxRepresentative testTreeMap [4, 5, 6, 7, 8] 20 p = 2) := by
  have hterm : ∀ p ∈ ([4, 5, 6, 7, 8] : List Pid),
      WalkTerminates testTreeMap [4, 5, 6, 7, 8] 20 p := by decide
  have h := get_parent_processes_correct testTreeMap [4, 5, 6, 7, 8] 20 hterm
  refine ⟨hterm, h.1.trans (by decide), h.2.trans (by decide), by decide⟩

/-- C8 counterexample: with `force_ancestor_to_match = false`, the
representative of pid 4 in the repository's test tree is 2 (the first
non-matching parent), not the deepest directly matching ancestor (4 itself):
the "last pid before leaving the matching set" reading is false on the code. -/
theorem lax_rep_not_last_matching :
    climbLoop testTreeMap [4, 5, 6, 7, 8] false 20 4 4 = 2
    ∧ deepestMatchingAncestor testTreeMap [4, 5, 6, 7, 8] 20 4 = 4
    ∧ getParentProcesses testTreeMap [4, 5, 6, 7, 8] false 20 = [2, 1]
    ∧ (2 : Pid) ≠ 4 := by
  decide

/-- C8 amended: with `force_ancestor_to_match = false` the representative of a
matching pid is the first non-matching parent met on the upward walk; only
when the walk ends without meeting one (root or missing node reached) is it
the deepest matching ancestor. -/
theorem lax_rep_first_non_matching (map : List (Pid × ProcessTreeNode))
    (valid : List Pid) (fuel : Nat) (p : Pid)
    (hterm : WalkTerminates map valid fuel p) :
    (∀ q, firstNonMatchingParent map valid fuel p = some q →
        climbLoop map valid false fuel p p = q)
    ∧ (firstNonMatchingParent map valid fuel p = none →
        climbLoop map valid false fuel p p = deepestMatchingAncestor map valid fuel p) := by
  have h := climbLoop_false_spec map valid fuel p hterm
  constructor
  · intro q hq
    rw [h]
    unfold laxRepresentative
    rw [hq]
  · intro hq
    rw [h]
    unfold laxRepresentative
    rw [hq]

/-- Witness for the amended C8: pid 6's walk in the test tree meets the
non-matching parent 2 and its representative is 2. -/
theorem lax_rep_first_non_matching_witness :
    WalkTerminates testTreeMap [4, 5, 6, 7, 8] 20 6
    ∧ firstNonMatchingParent testTreeMap [4, 5, 6, 7, 8] 20 6 = some 2
    ∧ climbLoop testTreeMap [4, 5, 6, 7, 8] false 20 6 6 = 2 := by
  have hterm : WalkTerminates testTreeMap [4, 5, 6, 7, 8] 20 6 := by decide
  have h := (lax_rep_first_non_matching testTreeMap [4, 5, 6, 7, 8] 20 6 hterm).1 2 (by decide)
  exact ⟨hterm, by decide, h⟩

/-- `ProcLastUpdate`: either a last-emission timestamp or a warm-up countdown. -/
inductive ProcLastUpdate where
  | some (t : Int)
  | refreshesRemaining (n : Nat)
deriving DecidableEq

/-- `Proc`: agent-local state for one tracked pid. -/
structure Proc where
  name : String
  startTime : Int
  lastUpdate : ProcLastUpdate
  justStarted : Bool
deriving DecidableEq

/-- `CompletedProcess` attributes, as constructed in `log_completed_process`. -/
structure CompletedProcess where
  tool_name : String
  tool_pid : String
  duration_sec : Nat
deriving DecidableEq

/-- `DataSetsProcessed` attributes, as constructed in `log_datasets_in_process`. -/
structure DataSetsProcessed where
  datasets : String
  total : Nat
deriving DecidableEq

/-- Events at the recorder interface boundary.  Payloads built from the live
OS snapshot (full `ProcessProperties`) are summarised by the pid; the
completion and dataset payloads are carried in full. -/
inductive Event where
  | toolExecution (pid : Pid)
  | toolMetricEvent (pid : Pid)
  | finishedToolExecution (c : CompletedProcess)
  | dataSamplesEvent (d : DataSetsProcessed)
deriving DecidableEq

/-- `HashMap::get` on the association-list model of `HashMap<Pid, Proc>`. -/
def lookupP : List (Pid × Proc) → Pid → Option Proc
  | [], _ => none
  | e :: rest, pid => if e.1 = pid then some e.2 else lookupP rest pid

/-- In-place update of an existing key (`HashMap::get_mut`). -/
def updateP (seen : List (Pid × Proc)) (pid : Pid) (p : Proc) : List (Pid × Proc) :=
  seen.map (fun e => if e.1 = pid then (pid, p) else e)

/-- `HashMap::insert`: overwrite an existing key, else add the entry. -/
def insertP (seen : List (Pid × Proc)) (pid : Pid) (p : Proc) : List (Pid × Proc) :=
  if (lookupP seen pid).isSome then updateP seen pid p else seen ++ [(pid, p)]

/-- chrono `Duration::to_std`, over durations counted in whole seconds: fails
exactly on a negative duration. -/
def durationToStd (d : Int) : Except String Int :=
  if d < 0 then .error "OutOfRangeError" else .ok d

/-- `ProcessWatcher::log_completed_process`: the duration computation uses `?`,
so a clock-skew error propagates before any event is recorded; otherwise the
finished-tool-execution event is recorded. -/
def logCompletedProcess (now : Int) (pid : Pid) (proc : Proc) : Except String Event :=
  match durationToStd (now - proc.startTime) with
  | .error e => .error e
  | .ok d =>
    .ok (.finishedToolExecution
      { tool_name := proc.name, tool_pid := toString pid, duration_sec := d.toNat })

/-- The first loop of `ProcessWatcher::remove_completed_processes`: walk the
tracked entries, log a completion event for every pid absent from the
snapshot (the `?` on `log_completed_process` aborts the loop on error),
collecting the pids to remove. -/
def rcpLoop (now : Int) (snapshot : List Pid) :
    List (Pid × Proc) → List Pid → List Event → Except String (List Pid) × List Event
  | [], toRemove, events => (.ok toRemove.reverse, events)
  | (pid, proc) :: rest, toRemove, events =>
    if snapshot.contains pid then rcpLoop now snapshot rest toRemove events
    else
      match logCompletedProcess now pid proc with
      | .error e => (.error e, events)
      | .ok ev => rcpLoop now snapshot rest (pid :: toRemove) (events ++ [ev])

/-- `ProcessWatcher::remove_completed_processes`: on success the collected
pids are removed from `seen`; on a propagated error `seen` is untouched
(the removal loop never ran to completion). -/
def removeCompletedProcesses (now : Int) (snapshot : List Pid)
    (seen : List (Pid × Proc)) :
    Except String Unit × List (Pid × Proc) × List Event :=
  match rcpLoop now snapshot seen [] [] with
  | (.ok toRemove, events) =>
      (.ok (), seen.filter (fun e => !toRemove.contains e.1), events)
  | (.error e, events) => (.error e, seen, events)

/-- C2 evidence: a tracked pid absent from the snapshot whose start time (101)
is after now (100) makes the duration computation fail; no panic and no
finished event for it — but the error propagates out of
`remove_completed_processes`, so the removal pass is aborted: the other
vanished pid (2) is neither logged nor removed, and nothing is removed. -/
theorem remove_completed_aborts_on_clock_skew :
    removeCompletedProcesses 100 []
        [(1, ⟨"skewed", 101, .refreshesRemaining 2, false⟩),
         (2, ⟨"normal", 50, .refreshesRemaining 2, false⟩)]
      = (.error "OutOfRangeError",
         [(1, ⟨"skewed", 101, .refreshesRemaining 2, false⟩),
          (2, ⟨"normal", 50, .refreshesRemaining 2, false⟩)],
         []) := by
  rfl

/-- The body of the `poll_process_metrics` loop for one tracked, present pid:
the updated entry and whether a tool-metric event is emitted. -/
def pollStep (now interval : Int) (p : Proc) : Proc × Bool :=
  if p.justStarted then (p, false)
  else
    match p.lastUpdate with
    | .refreshesRemaining n =>
      if n ≠ 0 then ({ p with lastUpdate := .refreshesRemaining (n - 1) }, false)
      else ({ p with lastUpdate := .some now }, true)
    | .some t =>
      if t + interval < now then ({ p with lastUpdate := .some now }, true)
      else (p, false)

/-- The fold underlying `poll_process_metrics`: iterate the snapshot pids,
updating the tracked entry and appending a tool-metric event when one is
emitted. -/
def pollFold (now interval : Int) (l : List Pid)
    (st : List (Pid × Proc) × List Event) : List (Pid × Proc) × List Event :=
  l.foldl
    (fun st pid =>
      match lookupP st.1 pid with
      | none => st
      | some p =>
        let r := pollStep now interval p
        (updateP st.1 pid r.1, if r.2 then st.2 ++ [.toolMetricEvent pid] else st.2))
    st

/-- `ProcessWatcher::poll_process_metrics`. -/
def pollProcessMetrics (now interval : Int) (snapshot : List Pid)
    (seen : List (Pid × Proc)) : List (Pid × Proc) × List Event :=
  pollFold now interval snapshot (seen, [])

/-- The `seen`-map effect of `ProcessWatcher::add_new_process`: the pid is
inserted with warm-up countdown 2 and the `just_started` flag set. -/
def addNewProcessSeen (now : Int) (pid : Pid) (name : String)
    (seen : List (Pid × Proc)) : List (Pid × Proc) :=
  insertP seen pid
    { name := name, startTime := now, lastUpdate := .refreshesRemaining 2,
      justStarted := true }

theorem lookupP_updateP_self (pid : Pid) (x : Proc) :
    ∀ st : List (Pid × Proc), (lookupP st pid).isSome →
      lookupP (updateP st pid x) pid = some x := by
  intro st
  induction st with
  | nil => intro h; simp [lookupP] at h
  | cons e rest ih =>
    intro h
    by_cases he : e.1 = pid
    · simp [lookupP, updateP, he]
    · simp only [lookupP, if_neg he] at h
      have hrest := ih h
      simp only [updateP, List.map_cons, if_neg he] at hrest ⊢
      simp only [lookupP, if_neg he]
      exact hrest

theorem lookupP_append_self (pid : Pid) (x : Proc) :
    ∀ st : List (Pid × Proc), lookupP st pid = none →
      lookupP (st ++ [(pid, x)]) pid = some x := by
  intro st
  induction st with
  | nil => intro _; simp [lookupP]
  | cons e rest ih =>
    intro h
    by_cases he : e.1 = pid
    · simp [lookupP, he] at h
    · simp only [lookupP, if_neg he, List.cons_append] at h ⊢
      exact ih h

theorem lookupP_updateP_other (q pid : Pid) (x : Proc) (hne : q ≠ pid) :
    ∀ st : List (Pid × Proc), lookupP (updateP st q x) pid = lookupP st pid := by
  intro st
  induction st with
  | nil => simp [lookupP, updateP]
  | cons e rest ih =>
    simp only [updateP, List.map_cons] at ih ⊢
    by_cases he : e.1 = q
    · have hq : ¬ q = pid := hne
      simp only [if_pos he, lookupP, if_neg hq]
      rw [← he] at hq
      simp only [lookupP, if_neg hq]
      exact ih
    · simp only [if_neg he, lookupP]
      by_cases hp : e.1 = pid
      · simp [hp]
      · simp only [if_neg hp]
        exact ih

theorem pollFold_frame (now interval : Int) :
    ∀ (l : List Pid) (st : List (Pid × Proc) × List Event) (pid : Pid),
      pid ∉ l →
      lookupP (pollFold now interval l st).1 pid = lookupP st.1 pid
      ∧ (Event.toolMetricEvent pid ∈ (pollFold now interval l st).2
          ↔ Event.toolMetricEvent pid ∈ st.2) := by
  intro l
  induction l with
  | nil => intro st pid _; simp [pollFold]
  | cons q l ih =>
    intro st pid hpid
    have hq : q ≠ pid := fun h => hpid (h ▸ List.mem_cons_self q l)
    have hl : pid ∉ l := fun h => hpid (List.mem_cons_of_mem q h)
    unfold pollFold
    rw [List.foldl_cons]
    cases hlk : lookupP st.1 q with
    | none => exact ih st pid hl
    | some p =>
      simp only
      have h := ih (updateP st.1 q (pollStep now interval p).1,
        if (pollStep now interval p).2 then st.2 ++ [.toolMetricEvent q] else st.2) pid hl
      unfold pollFold at h
      refine ⟨h.1.trans (lookupP_updateP_other q pid _ hq st.1), h.2.trans ?_⟩
      have hpq : pid ≠ q := Ne.symm hq
      cases hem : (pollStep now interval p).2 with
      | false => simp [hem]
      | true => simp [hem, hpq]

theorem pollFold_step (now interval : Int) :
    ∀ (l : List Pid) (st : List (Pid × Proc) × List Event) (pid : Pid) (p : Proc),
      l.Nodup → pid ∈ l → lookupP st.1 pid = some p →
      lookupP (pollFold now interval l st).1 pid = some (pollStep now interval p).1
      ∧ (Event.toolMetricEvent pid ∈ (pollFold now interval l st).2
          ↔ ((pollStep now interval p).2 = true ∨ Event.toolMetricEvent pid ∈ st.2)) := by
  intro l
  induction l with
  | nil => intro st pid p _ hmem; exact absurd hmem (List.not_mem_nil pid)
  | cons q l ih =>
    intro st pid p hnd hmem hlk
    have hnd' := List.nodup_cons.mp hnd
    unfold pollFold
    rw [List.foldl_cons]
    by_cases hqp : q = pid
    · subst hqp
      rw [hlk]
      simp only
      have hnotin : q ∉ l := hnd'.1
      have hframe := pollFold_frame now interval l
        (updateP st.1 q (pollStep now interval p).1,
          if (pollStep now interval p).2 then st.2 ++ [.toolMetricEvent q] else st.2)
        q hnotin
      unfold pollFold at hframe
      refine ⟨hframe.1.trans (lookupP_updateP_self q _ st.1 (by simp [hlk])), ?_⟩
      refine hframe.2.trans ?_
      cases hem : (pollStep now interval p).2 with
      | false => simp [hem]
      | true => simp [hem]
    · have hmem' : pid ∈ l := by
        cases List.mem_cons.mp hmem with
        | inl h => exact absurd h.symm hqp
        | inr h => exact h
      cases hlkq : lookupP st.1 q with
      | none => exact ih st pid p hnd'.2 hmem' hlk
      | some pq =>
        simp only
        have hlk' : lookupP (updateP st.1 q (pollStep now interval pq).1) pid = some p := by
          rw [lookupP_updateP_other q pid _ hqp st.1]
          exact hlk
        have h := ih (updateP st.1 q (pollStep now interval pq).1,
          if (pollStep now interval pq).2 then st.2 ++ [.toolMetricEvent q] else st.2)
          pid p hnd'.2 hmem' hlk'
        refine ⟨h.1, h.2.trans ?_⟩
        have hpq : pid ≠ q := fun h2 => hqp h2.symm
        cases hem : (pollStep now interval pq).2 with
        | false => simp [hem]
        | true => simp [hem, hpq]

/-- C4 counterexample: at the exact boundary `now - t = interval` (now = 5,
t = 0, interval = 5) the comparison `last_update + interval < now` is false,
so no tool-metric event is emitted and the state is not refreshed, although
`now - t ≥ interval` holds — the claim's `≥` reading is false on the code. -/
theorem poll_metrics_boundary_no_emit :
    pollProcessMetrics 5 5 [1] [(1, ⟨"tool", 0, .some 0, false⟩)]
      = ([(1, ⟨"tool", 0, .some 0, false⟩)], [])
    ∧ ((5 : Int) - 0 ≥ 5) := by
  constructor
  · rfl
  · decide

/-- C4 amended: for a tracked pid present in the snapshot with
`just_started = false`: `WarmingUp(n)` with `n ≠ 0` decrements without an
event; `WarmingUp(0)` emits a tool-metric event and moves to
`SteadyState(now)`; `SteadyState(t)` emits and refreshes exactly when
`now - t` STRICTLY exceeds the interval, and does nothing otherwise.  Newly
matched processes are inserted with warm-up countdown 2 and
`just_started = true`. -/
theorem poll_metrics_state_machine (now interval : Int) (snapshot : List Pid)
    (seen : List (Pid × Proc)) (pid : Pid) (p : Proc)
    (hnd : snapshot.Nodup) (hmem : pid ∈ snapshot)
    (hlk : lookupP seen pid = some p) (hjs : p.justStarted = false) :
    (∀ n, n ≠ 0 → p.lastUpdate = .refreshesRemaining n →
        lookupP (pollProcessMetrics now interval snapshot seen).1 pid
            = some { p with lastUpdate := .refreshesRemaining (n - 1) }
          ∧ Event.toolMetricEvent pid ∉ (pollProcessMetrics now interval snapshot seen).2)
    ∧ (p.lastUpdate = .refreshesRemaining 0 →
        lookupP (pollProcessMetrics now interval snapshot seen).1 pid
            = some { p with lastUpdate := .some now }
          ∧ Event.toolMetricEvent pid ∈ (pollProcessMetrics now interval snapshot seen).2)
    ∧ (∀ t, p.lastUpdate = .some t → interval < now - t →
        lookupP (pollProcessMetrics now interval snapshot seen).1 pid
            = some { p with lastUpdate := .some now }
          ∧ Event.toolMetricEvent pid ∈ (pollProcessMetrics now interval snapshot seen).2)
    ∧ (∀ t, p.lastUpdate = .some t → now - t ≤ interval →
        lookupP (pollProcessMetrics now interval snapshot seen).1 pid = some p
          ∧ Event.toolMetricEvent pid ∉ (pollProcessMetrics now interval snapshot seen).2)
    ∧ (∀ name pid2 (seen2 : List (Pid × Proc)),
        lookupP (addNewProcessSeen now pid2 name seen2) pid2
        = some { name := name, startTime := now,
                 lastUpdate := .refreshesRemaining 2, justStarted := true }) := by
  have hstep := pollFold_step now interval snapshot (seen, []) pid p hnd hmem hlk
  have hstep1 := hstep.1
  have hstep2 := hstep.2
  refine ⟨?_, ?_, ?_, ?_, ?_⟩
  · intro n hn hlu
    have hps : pollStep now interval p
        = ({ p with lastUpdate := .refreshesRemaining (n - 1) }, false) := by
      simp [pollStep, hjs, hlu, hn]
    constructor
    · have hres := hstep1
      rw [hps] at hres
      exact hres
    · intro hmemEv
      have hor := hstep2.mp hmemEv
      rw [hps] at hor
      simp at hor
  · intro hlu
    have hps : pollStep now interval p = ({ p with lastUpdate := .some now }, true) := by
      simp [pollStep, hjs, hlu]
    constructor
    · have hres := hstep1
      rw [hps] at hres
      exact hres
    · exact hstep2.mpr (Or.inl (by rw [hps]))
  · intro t hlu hlt
    have hps : pollStep now interval p = ({ p with lastUpdate := .some now }, true) := by
      simp [pollStep, hjs, hlu, show t + interval < now from by omega]
    constructor
    · have hres := hstep1
      rw [hps] at hres
      exact hres
    · exact hstep2.mpr (Or.inl (by rw [hps]))
  · intro t hlu hle
    have hps : pollStep now interval p = (p, false) := by
      simp [pollStep, hjs, hlu, show ¬ (t + interval < now) from by omega]
    constructor
    · have hres := hstep1
      rw [hps] at hres
      exact hres
    · intro hmemEv
      have hor := hstep2.mp hmemEv
      rw [hps] at hor
      simp at hor
  · intro name pid2 seen2
    unfold addNewProcessSeen insertP
    by_cases h : (lookupP seen2 pid2).isSome
    · rw [if_pos h]
      exact lookupP_updateP_self pid2 _ seen2 h
    · rw [if_neg h]
      refine lookupP_append_self pid2 _ seen2 ?_
      cases hl : lookupP seen2 pid2 with
      | none => rfl
      | some v => rw [hl] at h; simp at h

/-- Witness for the amended C4 at a concrete state: a tracked pid in
`WarmingUp(2)` is decremented to `WarmingUp(1)` with no event, and a pid in
`SteadyState(0)` with `now - t` strictly above the interval emits. -/
theorem poll_metrics_state_machine_witness :
    (lookupP (pollProcessMetrics 10 3 [1] [(1, ⟨"t", 0, .refreshesRemaining 2, false⟩)]).1 1
        = some ⟨"t", 0, .refreshesRemaining 1, false⟩
      ∧ Event.toolMetricEvent 1
          ∉ (pollProcessMetrics 10 3 [1] [(1, ⟨"t", 0, .refreshesRemaining 2, false⟩)]).2)
    ∧ (lookupP (pollProcessMetrics 10 3 [2] [(2, ⟨"u", 0, .some 0, false⟩)]).1 2
        = some ⟨"u", 0, .some 10, false⟩
      ∧ Event.toolMetricEvent 2
          ∈ (pollProcessMetrics 10 3 [2] [(2, ⟨"u", 0, .some 0, false⟩)]).2) := by
  constructor
  · exact (poll_metrics_state_machine 10 3 [1] [(1, ⟨"t", 0, .refreshesRemaining 2, false⟩)]
      1 ⟨"t", 0, .refreshesRemaining 2, false⟩ (by decide) (by decide) rfl rfl).1 2
      (by decide) rfl
  · exact ((poll_metrics_state_machine 10 3 [2] [(2, ⟨"u", 0, .some 0, false⟩)]
      2 ⟨"u", 0, .some 0, false⟩ (by decide) (by decide) rfl rfl).2.2.1) 0 rfl (by decide)

/-- Modelled from the spec: the polymorphic matcher kind of a Target rule
(`Target` lives in `config_manager::target_process`, which is not under
src/): "name/cmd/binary matcher (polymorphic: exact, substring, regex)". -/
inductive MatcherKind where
  | exactMatch
  | substringMatch
  | regexMatch
deriving DecidableEq

/-- Modelled from the spec: one matcher of a Target rule. -/
structure Matcher where
  kind : MatcherKind
  pattern : String
deriving DecidableEq

/-- Modelled from the spec: a Target — "name/cmd/binary matcher (polymorphic:
exact, substring, regex), display-name rule, `merge_with_parent` flag,
`force_ancestor_match` flag"; equality is structural (the Rust `PartialEq`
derive), which is all `reload_targets` needs. -/
structure Target where
  matchers : List Matcher
  displayName : Option String
  mergeWithParent : Bool
  forceAncestorMatch : Bool
deriving DecidableEq

/-- The `ProcessWatcher` state: targets, seen map, process tree, and the
dataset tracker set. -/
structure ProcessWatcher where
  targets : List Target
  seen : List (Pid × Proc)
  processTree : List (Pid × ProcessTreeNode)
  datasamplesTracker : List String

/-- `ProcessWatcher::reload_targets`: early-return on an equal catalog,
otherwise replace the catalog and clear the seen map (and nothing else). -/
def reloadTargets (w : ProcessWatcher) (targets : List Target) : ProcessWatcher :=
  if targets = w.targets then w
  else { w with targets := targets, seen := [] }

/-- Modelled from the spec: the configured dataset-extension list
(`DATA_SAMPLES_EXT` in `config_manager::target_process::targets_list`, not
under src/); the repository test `test_count_dataset_matches_works` forces
the `.fa` extension to be in it. -/
def DATA_SAMPLES_EXT : List String := [".fa"]

/-- Rust `str::ends_with`, modelled over the character sequence (Lean's own
`String.endsWith` is byte-position based and not kernel-reducible). -/
def strEndsWith (s ext : String) : Bool :=
  ext.data.isSuffixOf s.data

/-- `HashSet::insert` on the duplicate-free-list model of `HashSet<String>`. -/
def hsInsert (s : List String) (x : String) : List String :=
  if x ∈ s then s else s ++ [x]

/-- `ProcessWatcher::log_datasets_in_process`: add every command argument
carrying a dataset extension to the tracker, then record a dataset-stats
event with the joined set and its count. -/
def logDatasetsInProcess (tracker : List String) (cmd : List String) :
    List String × Event :=
  let tracker2 := cmd.foldl
    (fun t arg =>
      if DATA_SAMPLES_EXT.any (fun ext => strEndsWith arg ext) then hsInsert t arg else t)
    tracker
  (tracker2,
   .dataSamplesEvent
     { datasets := String.intercalate ", " tracker2, total := tracker2.length })

/-- The two kallisto command lines of `test_count_dataset_matches_works`. -/
def kallistoCmd1 : List String :=
  ["kallisto", "quant", "-t", "4", "-i", "control_index", "-o",
   "./control_quant_9", "control1_1.fa", "control1_2.fa"]

/-- The second kallisto command line of the test. -/
def kallistoCmd2 : List String :=
  ["kallisto", "quant", "-t", "4", "-i", "control_index", "-o",
   "./control_quant_9", "control1_3.fa", "control1_4.fa"]

theorem logDatasets_length_le (tracker : List String) (cmd : List String) :
    tracker.length ≤ (logDatasetsInProcess tracker cmd).1.length := by
  unfold logDatasetsInProcess
  simp only
  induction cmd generalizing tracker with
  | nil => simp
  | cons a cmd ih =>
    rw [List.foldl_cons]
    refine le_trans ?_ (ih _)
    by_cases h : (DATA_SAMPLES_EXT.any (fun ext => strEndsWith a ext)) = true
    · rw [if_pos h]
      unfold hsInsert
      by_cases hmem : a ∈ tracker
      · rw [if_pos hmem]
      · rw [if_neg hmem]; simp
    · rw [if_neg h]

theorem logDatasets_subset (tracker : List String) (cmd : List String) :
    tracker ⊆ (logDatasetsInProcess tracker cmd).1 := by
  unfold logDatasetsInProcess
  simp only
  induction cmd generalizing tracker with
  | nil => simp
  | cons a cmd ih =>
    rw [List.foldl_cons]
    refine subset_trans ?_ (ih _)
    by_cases h : (DATA_SAMPLES_EXT.any (fun ext => strEndsWith a ext)) = true
    · rw [if_pos h]
      unfold hsInsert
      by_cases hmem : a ∈ tracker
      · rw [if_pos hmem]
        exact List.Subset.refl _
      · rw [if_neg hmem]; exact List.subset_append_left _ _
    · rw [if_neg h]
      exact List.Subset.refl _

/-- C5: the dataset tracker count never decreases across any sequence of
command lines; a command line all of whose dataset-suffixed arguments were
already seen leaves the tracker unchanged; and the repository's kallisto
example yields counts 2 then 4. -/
theorem dataset_tracker_monotone :
    (∀ (cmds : List (List String)) (tracker : List String),
      tracker.length
        ≤ (cmds.foldl (fun t cmd => (logDatasetsInProcess t cmd).1) tracker).length)
    ∧ (∀ (tracker cmd : List String),
        (∀ arg ∈ cmd, (DATA_SAMPLES_EXT.any (fun ext => strEndsWith arg ext)) = true →
            arg ∈ tracker) →
        (logDatasetsInProcess tracker cmd).1 = tracker)
    ∧ (logDatasetsInProcess [] kallistoCmd1).1.length = 2
    ∧ (logDatasetsInProcess (logDatasetsInProcess [] kallistoCmd1).1 kallistoCmd2).1.length
        = 4 := by
  refine ⟨?_, ?_, by decide, by decide⟩
  · intro cmds
    induction cmds with
    | nil => intro tracker; simp
    | cons c cmds ih =>
      intro tracker
      rw [List.foldl_cons]
      exact le_trans (logDatasets_length_le tracker c) (ih _)
  · intro tracker cmd hseen
    unfold logDatasetsInProcess
    simp only
    induction cmd with
    | nil => simp
    | cons a cmd ih =>
      rw [List.foldl_cons]
      by_cases h : (DATA_SAMPLES_EXT.any (fun ext => strEndsWith a ext)) = true
      · rw [if_pos h]
        have hmem : a ∈ tracker := hseen a (List.mem_cons_self a cmd) h
        rw [show hsInsert tracker a = tracker from if_pos hmem]
        exact ih (fun arg harg hext => hseen arg (List.mem_cons_of_mem a harg) hext)
      · rw [if_neg h]
        exact ih (fun arg harg hext => hseen arg (List.mem_cons_of_mem a harg) hext)

/-- Witness for C5: the already-seen clause applied to re-processing the first
kallisto command line on a tracker that already contains its datasets. -/
theorem dataset_tracker_monotone_witness :
    ([] : List String).length ≤ (logDatasetsInProcess [] kallistoCmd1).1.length
    ∧ (logDatasetsInProcess (logDatasetsInProcess [] kallistoCmd1).1 kallistoCmd1).1
        = (logDatasetsInProcess [] kallistoCmd1).1 := by
  constructor
  · exact dataset_tracker_monotone.1 [kallistoCmd1] []
  · exact dataset_tracker_monotone.2.1 (logDatasetsInProcess [] kallistoCmd1).1
      kallistoCmd1 (by decide)

/-- C6: reloading an identical catalog is a complete no-op on the tracker
state; a different catalog replaces the catalog and clears the seen map,
leaving the process tree and the dataset tracker as they were. -/
theorem reload_targets_frame (w : ProcessWatcher) (targets : List Target) :
    (targets = w.targets → reloadTargets w targets = w)
    ∧ (targets ≠ w.targets →
        (reloadTargets w targets).targets = targets
        ∧ (reloadTargets w targets).seen = []
        ∧ (reloadTargets w targets).processTree = w.processTree
        ∧ (reloadTargets w targets).datasamplesTracker = w.datasamplesTracker) := by
  constructor
  · intro h
    simp [reloadTargets, h]
  · intro h
    simp [reloadTargets, h]

/-- Witness for C6 at a concrete tracker: an equal reload changes nothing and
a different reload replaces the catalog and empties the seen map. -/
theorem reload_targets_frame_witness :
    reloadTargets ⟨[], [(1, ⟨"t", 0, .refreshesRemaining 2, true⟩)], [], ["control1_1.fa"]⟩ []
        = ⟨[], [(1, ⟨"t", 0, .refreshesRemaining 2, true⟩)], [], ["control1_1.fa"]⟩
    ∧ (reloadTargets
          ⟨[], [(1, ⟨"t", 0, .refreshesRemaining 2, true⟩)], [], ["control1_1.fa"]⟩
          [⟨[], none, false, false⟩]).targets = [⟨[], none, false, false⟩]
    ∧ (reloadTargets
          ⟨[], [(1, ⟨"t", 0, .refreshesRemaining 2, true⟩)], [], ["control1_1.fa"]⟩
          [⟨[], none, false, false⟩]).seen = [] := by
  refine ⟨?_, ?_, ?_⟩
  · exact (reload_targets_frame _ []).1 rfl
  · exact ((reload_targets_frame _ [⟨[], none, false, false⟩]).2 (by decide)).1
  · exact ((reload_targets_frame _ [⟨[], none, false, false⟩]).2 (by decide)).2.1

/-- C7 counterexample: reloading a materially different catalog leaves the
dataset tracker exactly as it was — it is not reset, so "reset when, and only
when, the Target Catalog changes" is false on the code. -/
theorem reload_does_not_reset_datasets :
    (reloadTargets ⟨[], [], [], ["control1_1.fa"]⟩
        [⟨[], none, false, false⟩]).datasamplesTracker = ["control1_1.fa"]
    ∧ ([⟨[], none, false, false⟩] : List Target)
        ≠ (⟨[], [], [], ["control1_1.fa"]⟩ : ProcessWatcher).targets
    ∧ (["control1_1.fa"] : List String) ≠ [] := by
  refine ⟨rfl, by decide, by decide⟩

/-- C7 amended: the dataset set grows monotonically for the tracker's whole
lifetime and is never reset — `reload_targets` leaves it untouched even when
the catalog changes. -/
theorem datasets_survive_reload (w : ProcessWatcher) (targets : List Target) :
    (reloadTargets w targets).datasamplesTracker = w.datasamplesTracker
    ∧ (∀ tracker cmd, tracker ⊆ (logDatasetsInProcess tracker cmd).1) := by
  constructor
  · unfold reloadTargets
    by_cases h : targets = w.targets <;> simp [h]
  · exact logDatasets_subset

/-- `ProcessWatcher::preview_targets` (the first 10 tracked names, as a set)
and `preview_targets_count` (the number of tracked pids). -/
def previewTargets (w : ProcessWatcher) : List String :=
  ((w.seen.take 10).map (fun e => e.2.name)).dedup

/-- `ProcessWatcher::preview_targets_count`. -/
def previewTargetsCount (w : ProcessWatcher) : Nat :=
  w.seen.length

/-- C10: the preview has at most 10 entries, each entry is the recorded name
of some currently tracked process, and the count reports all tracked pids. -/
theorem preview_targets_bounded (w : ProcessWatcher) :
    (previewTargets w).length ≤ 10
    ∧ (∀ n ∈ previewTargets w, ∃ e ∈ w.seen, e.2.name = n)
    ∧ previewTargetsCount w = w.seen.length := by
  refine ⟨?_, ?_, rfl⟩
  · calc (previewTargets w).length
        ≤ ((w.seen.take 10).map (fun e => e.2.name)).length :=
          (List.dedup_sublist _).length_le
      _ = (w.seen.take 10).length := List.length_map _ _
      _ ≤ 10 := List.length_take_le _ _
  · intro n hn
    unfold previewTargets at hn
    rw [List.mem_dedup] at hn
    rcases List.mem_map.mp hn with ⟨e, he, hname⟩
    exact ⟨e, (List.take_sublist 10 w.seen).subset he, hname⟩

/-- Witness for C10 at a concrete tracker with one tracked pid. -/
theorem preview_targets_bounded_witness :
    (previewTargets ⟨[], [(1, ⟨"t", 0, .refreshesRemaining 2, true⟩)], [], []⟩).length ≤ 10
    ∧ (∃ e ∈ ([(1, ⟨"t", 0, .refreshesRemaining 2, true⟩)] : List (Pid × Proc)),
        e.2.name = "t")
    ∧ previewTargetsCount ⟨[], [(1, ⟨"t", 0, .refreshesRemaining 2, true⟩)], [], []⟩ = 1 := by
  have h := preview_targets_bounded ⟨[], [(1, ⟨"t", 0, .refreshesRemaining 2, true⟩)], [], []⟩
  exact ⟨h.1, h.2.1 "t" (by decide), h.2.2.trans (by decide)⟩

/-- `FileAction` (file_watcher.rs). -/
inductive FileAction where
  | none
  | upload
deriving DecidableEq

/-- `FileInfo` (file_watcher.rs): path, size, last-modified time, optional
cached-copy path, assigned action. -/
structure FileInfo where
  path : String
  size : Nat
  last_update : Int
  cached_path : Option String
  action : FileAction
deriving DecidableEq

/-- `FileUploadType`. -/
inductive FileUploadType where
  | none
  | old
  | new
deriving DecidableEq

/-- `HashMap::get` on the association-list model of `HashMap<String, FileInfo>`. -/
def lookupF : List (String × FileInfo) → String → Option FileInfo
  | [], _ => none
  | e :: rest, path => if e.1 = path then some e.2 else lookupF rest path

/-- `FileWatcher::check_if_file_to_update`: both entries present and the new
modified time strictly later. -/
def checkIfFileToUpdate (oldInfo newInfo : Option FileInfo) : Bool :=
  match oldInfo, newInfo with
  | some o, some n => decide (o.last_update < n.last_update)
  | _, _ => false

/-- `FileWatcher::check_if_file_to_upload`: the diff-engine decision for one
path, given the previous-cycle and current-scan entries. -/
def checkIfFileToUpload (newSizeDuration : Int)
    (oldInfo newInfo : Option FileInfo) : FileUploadType :=
  match oldInfo, newInfo with
  | some o, some n =>
    match o.action, n.action with
    | .upload, _ => if n.size < o.size then .old else .none
    | _, .upload =>
      if n.last_update - o.last_update > newSizeDuration then .new else .none
    | _, _ => .none
  | some o, none =>
    match o.action with
    | .upload => .old
    | _ => .none
  | _, _ => .none

/-- The pushes done by one iteration of the upload-processing loop of
`poll_files` (zero or one `FileInfo`, cloned from the old or new entry). -/
def uploadContrib (newSizeDuration : Int)
    (watched found : List (String × FileInfo)) (path : String) : List FileInfo :=
  match checkIfFileToUpload newSizeDuration (lookupF watched path) (lookupF found path),
        lookupF watched path, lookupF found path with
  | .old, some o, _ => [o]
  | .new, _, some n => [n]
  | _, _, _ => []

/-- The caching pass of `poll_files` applied to one freshly scanned entry:
if the modified time advanced since the previous cycle, `cache_file` assigns
a generated cache name (`genName` stands for the random name generator) when
none is set yet. -/
def cacheEntry (genName : String → String) (watched : List (String × FileInfo))
    (e : String × FileInfo) : String × FileInfo :=
  if checkIfFileToUpdate (lookupF watched e.2.path) (some e.2) then
    (e.1, { e.2 with cached_path :=
      match e.2.cached_path with
      | none => some (genName e.2.path)
      | some c => some c })
  else e

/-- One cycle of `FileWatcher::poll_files` after the directory scan, as a
pure function of the previous baseline (`watched_files`) and the fresh scan
result (`found_files`): the queued uploads (walking the found keys then the
watched keys, as the Rust concatenation does) and the new baseline (the scan
result after the caching pass).  Uploading and copying are external I/O,
modelled as succeeding. -/
def pollFiles (genName : String → String) (newSizeDuration : Int)
    (watched found : List (String × FileInfo)) :
    List FileInfo × List (String × FileInfo) :=
  let paths := found.map (fun e => e.1) ++ watched.map (fun e => e.1)
  let toUpload := paths.foldl
    (fun acc path => acc ++ uploadContrib newSizeDuration watched found path) []
  let newWatched := found.map (cacheEntry genName watched)
  (toUpload, newWatched)

/-- Key/value coherence of the maps as built by
`gather_pattern_from_directory`: each entry is keyed by its own path. -/
def Coherent (m : List (String × FileInfo)) : Prop :=
  ∀ e ∈ m, e.2.path = e.1

instance (m : List (String × FileInfo)) : Decidable (Coherent m) :=
  List.decidableBAll _ m

theorem lookupF_coherent (p : String) (v : FileInfo) :
    ∀ m : List (String × FileInfo), Coherent m → lookupF m p = some v →
      v.path = p := by
  intro m
  induction m with
  | nil => intro _ h; simp [lookupF] at h
  | cons e rest ih =>
    intro hc h
    by_cases he : e.1 = p
    · simp only [lookupF, if_pos he] at h
      rw [← Option.some_inj.mp h, ← he]
      exact hc e (List.mem_cons_self e rest)
    · simp only [lookupF, if_neg he] at h
      exact ih (fun x hx => hc x (List.mem_cons_of_mem e hx)) h

theorem lookupF_none_not_mem (p : String) :
    ∀ m : List (String × FileInfo), lookupF m p = none →
      p ∉ m.map (fun e => e.1) := by
  intro m
  induction m with
  | nil => intro _; simp
  | cons e rest ih =>
    intro h
    by_cases he : e.1 = p
    · simp [lookupF, he] at h
    · simp only [lookupF, if_neg he] at h
      simp only [List.map_cons, List.mem_cons]
      push_neg
      exact ⟨fun hx => he hx.symm, ih h⟩

theorem lookupF_some_mem (p : String) (v : FileInfo) :
    ∀ m : List (String × FileInfo), lookupF m p = some v →
      p ∈ m.map (fun e => e.1) := by
  intro m
  induction m with
  | nil => intro h; simp [lookupF] at h
  | cons e rest ih =>
    intro h
    by_cases he : e.1 = p
    · simp [List.map_cons, he]
    · simp only [lookupF, if_neg he] at h
      simp only [List.map_cons, List.mem_cons]
      exact Or.inr (ih h)

theorem uploadContrib_mem (newSizeDuration : Int)
    (watched found : List (String × FileInfo)) (q : String) (x : FileInfo)
    (hx : x ∈ uploadContrib newSizeDuration watched found q) :
    lookupF watched q = some x ∨ lookupF found q = some x := by
  unfold uploadContrib at hx
  cases hwq : lookupF watched q with
  | none =>
    cases hfq : lookupF found q with
    | none => rw [hwq, hfq] at hx; simp [checkIfFileToUpload] at hx
    | some n => rw [hwq, hfq] at hx; simp [checkIfFileToUpload] at hx
  | some o =>
    cases hfq : lookupF found q with
    | none =>
      rw [hwq, hfq] at hx
      cases ha : o.action with
      | upload =>
        simp [checkIfFileToUpload, ha] at hx
        exact Or.inl (by rw [hx])
      | none => simp [checkIfFileToUpload, ha] at hx
    | some n =>
      rw [hwq, hfq] at hx
      cases ha : o.action with
      | upload =>
        by_cases hs : n.size < o.size
        · simp [checkIfFileToUpload, ha, hs] at hx
          exact Or.inl (by rw [hx])
        · simp [checkIfFileToUpload, ha, hs] at hx
      | none =>
        cases hna : n.action with
        | upload =>
          by_cases ht : n.last_update - o.last_update > newSizeDuration
          · simp [checkIfFileToUpload, ha, hna, ht] at hx
            exact Or.inr (by rw [hx])
          · simp [checkIfFileToUpload, ha, hna, ht] at hx
        | none => simp [checkIfFileToUpload, ha, hna] at hx

theorem uploadContrib_countP_ne (newSizeDuration : Int)
    (watched found : List (String × FileInfo)) (p q : String)
    (hcw : Coherent watched) (hcf : Coherent found) (hqp : q ≠ p) :
    (uploadContrib newSizeDuration watched found q).countP
      (fun fi => fi.path == p) = 0 := by
  refine List.countP_eq_zero.mpr ?_
  intro x hx
  have hmem := uploadContrib_mem newSizeDuration watched found q x hx
  have hpath : x.path = q := by
    cases hmem with
    | inl h => exact lookupF_coherent q x watched hcw h
    | inr h => exact lookupF_coherent q x found hcf h
  simp [hpath, hqp]

theorem foldl_append_bind (contrib : String → List FileInfo) :
    ∀ (paths : List String) (acc : List FileInfo),
      paths.foldl (fun acc q => acc ++ contrib q) acc = acc ++ paths.flatMap contrib := by
  intro paths
  induction paths with
  | nil => intro acc; simp
  | cons q rest ih =>
    intro acc
    rw [List.foldl_cons, ih, List.flatMap_cons, List.append_assoc]

theorem countP_bind_eq_sum (pr : FileInfo → Bool) (contrib : String → List FileInfo) :
    ∀ paths : List String,
      (paths.flatMap contrib).countP pr
        = (paths.map (fun q => (contrib q).countP pr)).sum := by
  intro paths
  induction paths with
  | nil => simp
  | cons q rest ih => simp [List.flatMap_cons, List.countP_append, ih]

theorem sum_map_indicator (p : String) (f : String → Nat)
    (hp : f p = 1) (h0 : ∀ q, q ≠ p → f q = 0) :
    ∀ paths : List String, (paths.map f).sum = paths.count p := by
  intro paths
  induction paths with
  | nil => simp
  | cons q rest ih =>
    by_cases hq : q = p
    · subst hq
      simp [hp, ih, List.count_cons, List.map_cons]
      omega
    · simp [h0 q hq, ih, List.count_cons, List.map_cons, hq]

theorem sum_map_zero (f : String → Nat) (h0 : ∀ q, f q = 0) :
    ∀ paths : List String, (paths.map f).sum = 0 := by
  intro paths
  induction paths with
  | nil => simp
  | cons q rest ih => simp [h0 q, ih]

theorem cacheEntry_fst (genName : String → String)
    (watched : List (String × FileInfo)) (e : String × FileInfo) :
    (cacheEntry genName watched e).1 = e.1 := by
  unfold cacheEntry
  by_cases h : checkIfFileToUpdate (lookupF watched e.2.path) (some e.2) = true <;> simp [h]

theorem cacheEntry_path (genName : String → String)
    (watched : List (String × FileInfo)) (e : String × FileInfo) :
    (cacheEntry genName watched e).2.path = e.2.path := by
  unfold cacheEntry
  by_cases h : checkIfFileToUpdate (lookupF watched e.2.path) (some e.2) = true <;> simp [h]

theorem lookupF_map_cacheEntry_none (genName : String → String)
    (watched : List (String × FileInfo)) (p : String) :
    ∀ m : List (String × FileInfo), lookupF m p = none →
      lookupF (m.map (cacheEntry genName watched)) p = none := by
  intro m
  induction m with
  | nil => intro _; simp [lookupF]
  | cons e rest ih =>
    intro h
    by_cases he : e.1 = p
    · simp [lookupF, he] at h
    · simp only [lookupF, if_neg he] at h
      simp only [List.map_cons, lookupF, cacheEntry_fst, if_neg he]
      exact ih h

theorem coherent_map_cacheEntry (genName : String → String)
    (watched : List (String × FileInfo)) (m : List (String × FileInfo))
    (hc : Coherent m) : Coherent (m.map (cacheEntry genName watched)) := by
  intro e he
  rcases List.mem_map.mp he with ⟨e0, he0, rfl⟩
  rw [cacheEntry_path, cacheEntry_fst]
  exact hc e0 he0

/-- C3: a path whose previous-cycle entry is Upload-tagged and which is
absent from the current scan is queued exactly once this cycle, as its old
`FileInfo`; the new baseline no longer contains the path, so a later cycle in
which it stays absent queues nothing for it. -/
theorem poll_files_vanished_upload_once (genName : String → String)
    (newSizeDuration : Int) (watched found : List (String × FileInfo))
    (p : String) (oi : FileInfo)
    (hw : lookupF watched p = some oi) (hact : oi.action = .upload)
    (hn : lookupF found p = none)
    (hndk : (watched.map (fun e => e.1)).Nodup)
    (hcw : Coherent watched) (hcf : Coherent found) :
    ((pollFiles genName newSizeDuration watched found).1.countP
        (fun fi => fi.path == p) = 1)
    ∧ oi ∈ (pollFiles genName newSizeDuration watched found).1
    ∧ lookupF (pollFiles genName newSizeDuration watched found).2 p = none
    ∧ (∀ found2, Coherent found2 → lookupF found2 p = none →
        (pollFiles genName newSizeDuration
            (pollFiles genName newSizeDuration watched found).2 found2).1.countP
          (fun fi => fi.path == p) = 0) := by
  have hcontrib_p : uploadContrib newSizeDuration watched found p = [oi] := by
    unfold uploadContrib
    rw [hw, hn]
    simp [checkIfFileToUpload, hact]
  have hpath : oi.path = p := lookupF_coherent p oi watched hcw hw
  have huploads : (pollFiles genName newSizeDuration watched found).1
      = (found.map (fun e => e.1) ++ watched.map (fun e => e.1)).flatMap
          (uploadContrib newSizeDuration watched found) := by
    unfold pollFiles
    simp only
    rw [foldl_append_bind]
    simp
  have hnewW : (pollFiles genName newSizeDuration watched found).2
      = found.map (cacheEntry genName watched) := rfl
  refine ⟨?_, ?_, ?_, ?_⟩
  · rw [huploads, countP_bind_eq_sum]
    rw [sum_map_indicator p _ (by rw [hcontrib_p]; simp [hpath]) ?zeros]
    case zeros =>
      intro q hq
      exact uploadContrib_countP_ne newSizeDuration watched found p q hcw hcf hq
    rw [List.count_append]
    have h1 : (found.map (fun e => e.1)).count p = 0 :=
      List.count_eq_zero.mpr (lookupF_none_not_mem p found hn)
    have h2 : (watched.map (fun e => e.1)).count p = 1 :=
      List.count_eq_one_of_mem hndk (lookupF_some_mem p oi watched hw)
    rw [h1, h2]
  · rw [huploads]
    refine List.mem_flatMap.mpr ⟨p, ?_, ?_⟩
    · exact List.mem_append.mpr (Or.inr (lookupF_some_mem p oi watched hw))
    · rw [hcontrib_p]; exact List.mem_singleton.mpr rfl
  · rw [hnewW]
    exact lookupF_map_cacheEntry_none genName watched p found hn
  · intro found2 hcf2 hn2
    have hcw2 : Coherent (pollFiles genName newSizeDuration watched found).2 := by
      rw [hnewW]
      exact coherent_map_cacheEntry genName watched found hcf
    have hnW2 : lookupF (pollFiles genName newSizeDuration watched found).2 p = none := by
      rw [hnewW]
      exact lookupF_map_cacheEntry_none genName watched p found hn
    have huploads2 : (pollFiles genName newSizeDuration
        (pollFiles genName newSizeDuration watched found).2 found2).1
        = (found2.map (fun e => e.1)
            ++ ((pollFiles genName newSizeDuration watched found).2).map (fun e => e.1)).flatMap
            (uploadContrib newSizeDuration
              (pollFiles genName newSizeDuration watched found).2 found2) := by
      unfold pollFiles
      simp only
      rw [foldl_append_bind]
      simp
    rw [huploads2, countP_bind_eq_sum]
    refine sum_map_zero _ ?_ _
    intro q
    by_cases hq : q = p
    · subst hq
      unfold uploadContrib
      rw [hnW2, hn2]
      simp [checkIfFileToUpload]
    · exact uploadContrib_countP_ne newSizeDuration _ found2 p q hcw2 hcf2 hq

/-- Witness for C3 at a concrete pair of cycles: `a.log` was Upload-tagged in
the baseline, is gone from the scan, and is queued exactly once as its old
info; the next cycle queues nothing for it. -/
theorem poll_files_vanished_upload_once_witness :
    ((pollFiles id 5 [("a.log", ⟨"a.log", 7, 0, none, .upload⟩)] []).1.countP
        (fun fi => fi.path == "a.log") = 1)
    ∧ (⟨"a.log", 7, 0, none, .upload⟩ : FileInfo)
        ∈ (pollFiles id 5 [("a.log", ⟨"a.log", 7, 0, none, .upload⟩)] []).1
    ∧ lookupF (pollFiles id 5 [("a.log", ⟨"a.log", 7, 0, none, .upload⟩)] []).2 "a.log"
        = none := by
  have h := poll_files_vanished_upload_once id 5
    [("a.log", ⟨"a.log", 7, 0, none, .upload⟩)] [] "a.log"
    ⟨"a.log", 7, 0, none, .upload⟩ rfl rfl rfl (by decide) (by decide) (by decide)
  exact ⟨h.1, h.2.1, h.2.2.1⟩

/-- C9: a path present in the fresh scan but absent from the previous cycle's
baseline is never queued for upload in that cycle, whatever its entry's
action. -/
theorem poll_files_new_file_not_queued (genName : String → String)
    (newSizeDuration : Int) (watched found : List (String × FileInfo))
    (p : String) (ni : FileInfo)
    (hcw : Coherent watched) (hcf : Coherent found)
    (hw : lookupF watched p = none) (hf : lookupF found p = some ni) :
    (pollFiles genName newSizeDuration watched found).1.countP
      (fun fi => fi.path == p) = 0 := by
  have huploads : (pollFiles genName newSizeDuration watched found).1
      = (found.map (fun e => e.1) ++ watched.map (fun e => e.1)).flatMap
          (uploadContrib newSizeDuration watched found) := by
    unfold pollFiles
    simp only
    rw [foldl_append_bind]
    simp
  rw [huploads, countP_bind_eq_sum]
  refine sum_map_zero _ ?_ _
  intro q
  by_cases hq : q = p
  · subst hq
    unfold uploadContrib
    rw [hw, hf]
    simp [checkIfFileToUpload]
  · exact uploadContrib_countP_ne newSizeDuration watched found p q hcw hcf hq

/-- Witness for C9: a freshly appearing Upload-tagged file is not queued. -/
theorem poll_files_new_file_not_queued_witness :
    (pollFiles id 5 [] [("b.log", ⟨"b.log", 3, 9, none, .upload⟩)]).1.countP
      (fun fi => fi.path == "b.log") = 0 := by
  exact poll_files_new_file_not_queued id 5 [] [("b.log", ⟨"b.log", 3, 9, none, .upload⟩)]
    "b.log" ⟨"b.log", 3, 9, none, .upload⟩ (by decide) (by decide) rfl rfl

end Tracer
